import Mathlib

/-!
Shallow embedding of the snooker in-play odds model (src/main.py).

The numeric core of the program is pure arithmetic on floats; we model the
rational-arithmetic parts (`clip`, `season_strength`, `live_boost`,
`match_win_prob`) over ℚ, and the transcendental parts (`logit`, `inv_logit`,
the per-frame combination step of `App.update_all`) over ℝ.
-/

/-- `clip(x, lo, hi)` from main.py: `max(lo, min(hi, x))`. -/
def clip {α : Type} [LinearOrder α] (x lo hi : α) : α := max lo (min hi x)

/-- `logit(p)` from main.py: clamps `p` into `[1e-6, 1-1e-6]`, then `log(p/(1-p))`. -/
noncomputable def logit (p : ℝ) : ℝ :=
  let q := clip p 1e-6 (1 - 1e-6)
  Real.log (q / (1 - q))

/-- `inv_logit(z)` from main.py: `1/(1+exp(-z))`. -/
noncomputable def inv_logit (z : ℝ) : ℝ := 1 / (1 + Real.exp (-z))

/-- The body of `match_win_prob(p, a, b, target, memo)` from main.py, with the
memo dictionary made explicit as an association list threaded through the
recursion.  Returns the computed value together with the updated memo.
Check order follows the source: `a >= target`, then `b >= target`, then the
memo lookup, then the two recursive calls (the second seeing the memo produced
by the first), then the store. -/
def match_win_probGo (p : ℚ) (target a b : ℤ) (memo : List ((ℤ × ℤ) × ℚ)) :
    ℚ × List ((ℤ × ℤ) × ℚ) :=
  if _h1 : a ≥ target then (1, memo)
  else if _h2 : b ≥ target then (0, memo)
  else
    match memo.lookup (a, b) with
    | some v => (v, memo)
    | none =>
      let r1 := match_win_probGo p target (a + 1) b memo
      let r2 := match_win_probGo p target a (b + 1) r1.2
      let v := p * r1.1 + (1 - p) * r2.1
      (v, ((a, b), v) :: r2.2)
termination_by (2 * target - a - b).toNat
decreasing_by
  · omega
  · omega

/-- `match_win_prob(p, a, b, target)` from main.py as called externally
(`memo=None` starts a fresh empty memo). -/
def match_win_prob (p : ℚ) (a b target : ℤ) : ℚ :=
  (match_win_probGo p target a b []).1

/-- Modelled from the spec: the direct race recurrence
`f(a,b) = p*f(a+1,b) + (1-p)*f(a,b+1)` with base cases `1` when `a ≥ target`
and `0` when `b ≥ target`, evaluated without memoization.  Used as the
reference side of the refinement claim about memoization. -/
def match_win_prob_naive (p : ℚ) (target a b : ℤ) : ℚ :=
  if _h1 : a ≥ target then 1
  else if _h2 : b ≥ target then 0
  else p * match_win_prob_naive p target (a + 1) b +
       (1 - p) * match_win_prob_naive p target a (b + 1)
termination_by (2 * target - a - b).toNat
decreasing_by
  · omega
  · omega

/-- The raw (unmemoized) recursion of `match_win_prob` instrumented with a fuel
counter: each call consumes one unit of fuel, and `none` means the fuel ran out
before a base case was reached.  Used to state the termination claim. -/
def match_win_prob_fuel : Nat → ℚ → ℤ → ℤ → ℤ → Option ℚ
  | 0, _, _, _, _ => none
  | n + 1, p, target, a, b =>
    if a ≥ target then some 1
    else if b ≥ target then some 0
    else
      match match_win_prob_fuel n p target (a + 1) b,
            match_win_prob_fuel n p target a (b + 1) with
      | some x, some y => some (p * x + (1 - p) * y)
      | _, _ => none

/-- Python's `round` (banker's rounding, half ties to even), used by
`season_strength` via `int(round(matches_played))`. -/
def pyround (x : ℚ) : ℤ :=
  let f := ⌊x⌋
  let r := x - f
  if r < 1 / 2 then f
  else if r > 1 / 2 then f + 1
  else if 2 ∣ f then f else f + 1

/-- `season_strength` from main.py. -/
def season_strength (points_scored matches_played win_rate avg_shot_time
    b50 b100 w_wr w_ppm w_b50 w_b100 w_shot scale : ℚ) : ℚ :=
  let mp : ℚ := (max 1 (pyround matches_played) : ℤ)
  let ppm := points_scored / mp
  let r50 := b50 / mp
  let r100 := b100 / mp
  let ppm_c : ℚ := 300
  let r50_c : ℚ := 1
  let r100_c : ℚ := 0.15
  let shot_c : ℚ := 30
  let idx :=
    w_wr * (win_rate / 100 - 0.5) +
    w_ppm * ((ppm - ppm_c) / ppm_c) +
    w_b50 * ((r50 - r50_c) / max 0.3 r50_c) +
    w_b100 * ((r100 - r100_c) / max 0.05 r100_c) +
    w_shot * ((shot_c - avg_shot_time) / shot_c)
  scale * idx

/-- `live_boost` from main.py. -/
def live_boost (potA potB stA stB b50A b50B b100A b100B hbA hbB
    ptsA ptsB shotsA shotsB totA totB
    w_pot w_st w_b50 w_b100 w_hb w_pts w_shots w_tot
    sd_pot sd_st sd_b50 sd_b100 sd_hb sd_pts_share sd_shots_share sd_tot_share
    k_shots beta : ℚ) : ℚ :=
  let z : ℚ → ℚ → ℚ := fun diff sd => clip (diff / max sd 1e-9) (-3) 3
  let shots_tot := max 1 (shotsA + shotsB)
  let w_rel := clip (shots_tot / max 1 k_shots) 0 1
  let pot_diff := (potA - potB) / 100
  let st_diff := stB - stA
  let b50_diff := b50A - b50B
  let b100_diff := b100A - b100B
  let hb_diff := (hbA - hbB) / 100
  let pts_share := ptsA / max 1e-9 (ptsA + ptsB)
  let shots_share := shotsA / max 1e-9 (shotsA + shotsB)
  let tot_share := totA / 100
  let S :=
    w_pot * z pot_diff (sd_pot / 100) +
    w_st * z st_diff sd_st +
    w_b50 * z b50_diff sd_b50 +
    w_b100 * z b100_diff sd_b100 +
    w_hb * z hb_diff (sd_hb / 100) +
    w_pts * z (pts_share - 0.5) sd_pts_share +
    w_shots * z (shots_share - 0.5) sd_shots_share +
    w_tot * z (tot_share - 0.5) sd_tot_share
  beta * w_rel * S

/-- The per-frame probability combination step of `App.update_all` in main.py:
`p_frame_raw = inv_logit(SA - SB + boost)`, realism shrink toward 0.5 with the
clamped shrink factor, then the optional hard cap with independently clamped
bounds, swapped if inverted. -/
noncomputable def update_frame_prob (SA SB boost lambda_shrink : ℝ)
    (cap_on : Bool) (pmin pmax : ℝ) : ℝ :=
  let base_logit := SA - SB
  let total_logit := base_logit + boost
  let p_frame_raw := inv_logit total_logit
  let lam := clip lambda_shrink 0 1
  let p_frame := 0.5 + lam * (p_frame_raw - 0.5)
  if cap_on then
    let pmin2 := clip pmin 0 0.5
    let pmax2 := clip pmax 0.5 1
    let pr := if pmin2 > pmax2 then (pmax2, pmin2) else (pmin2, pmax2)
    clip p_frame pr.1 pr.2
  else p_frame

/-! Unfolding equations for the two recursive definitions. -/
theorem naive_a_ge (p : ℚ) (target a b : ℤ) (h : a ≥ target) :
    match_win_prob_naive p target a b = 1 := by
  rw [match_win_prob_naive]
  simp [h]

theorem naive_b_ge (p : ℚ) (target a b : ℤ) (h1 : ¬ a ≥ target) (h2 : b ≥ target) :
    match_win_prob_naive p target a b = 0 := by
  rw [match_win_prob_naive]
  simp [h1, h2]

theorem naive_step (p : ℚ) (target a b : ℤ) (h1 : ¬ a ≥ target) (h2 : ¬ b ≥ target) :
    match_win_prob_naive p target a b =
      p * match_win_prob_naive p target (a + 1) b +
      (1 - p) * match_win_prob_naive p target a (b + 1) := by
  rw [match_win_prob_naive]
  simp [h1, h2]

theorem go_a_ge (p : ℚ) (target a b : ℤ) (m : List ((ℤ × ℤ) × ℚ)) (h : a ≥ target) :
    match_win_probGo p target a b m = (1, m) := by
  rw [match_win_probGo]
  simp [h]

theorem go_b_ge (p : ℚ) (target a b : ℤ) (m : List ((ℤ × ℤ) × ℚ))
    (h1 : ¬ a ≥ target) (h2 : b ≥ target) :
    match_win_probGo p target a b m = (0, m) := by
  rw [match_win_probGo]
  simp [h1, h2]

theorem go_hit (p : ℚ) (target a b : ℤ) (m : List ((ℤ × ℤ) × ℚ)) (v : ℚ)
    (h1 : ¬ a ≥ target) (h2 : ¬ b ≥ target) (h3 : m.lookup (a, b) = some v) :
    match_win_probGo p target a b m = (v, m) := by
  rw [match_win_probGo]
  simp [h1, h2, h3]

theorem go_step (p : ℚ) (target a b : ℤ) (m : List ((ℤ × ℤ) × ℚ))
    (h1 : ¬ a ≥ target) (h2 : ¬ b ≥ target) (h3 : m.lookup (a, b) = none) :
    match_win_probGo p target a b m =
      (p * (match_win_probGo p target (a + 1) b m).1 +
        (1 - p) * (match_win_probGo p target a (b + 1)
          (match_win_probGo p target (a + 1) b m).2).1,
       ((a, b), p * (match_win_probGo p target (a + 1) b m).1 +
        (1 - p) * (match_win_probGo p target a (b + 1)
          (match_win_probGo p target (a + 1) b m).2).1) ::
        (match_win_probGo p target a (b + 1)
          (match_win_probGo p target (a + 1) b m).2).2) := by
  rw [match_win_probGo]
  simp [h1, h2, h3]

/-- The memo invariant: every stored value is the naive value of its key. -/
def MemoOK (p : ℚ) (target : ℤ) (m : List ((ℤ × ℤ) × ℚ)) : Prop :=
  ∀ a b v, m.lookup (a, b) = some v → v = match_win_prob_naive p target a b

theorem go_spec (p : ℚ) (target : ℤ) :
    ∀ (n : ℕ) (a b : ℤ) (m : List ((ℤ × ℤ) × ℚ)),
    (2 * target - a - b).toNat ≤ n → MemoOK p target m →
    (match_win_probGo p target a b m).1 = match_win_prob_naive p target a b ∧
    MemoOK p target (match_win_probGo p target a b m).2 := by
  intro n
  induction n with
  | zero =>
    intro a b m hn hm
    by_cases h1 : a ≥ target
    · rw [go_a_ge p target a b m h1, naive_a_ge p target a b h1]
      exact ⟨rfl, hm⟩
    · have h2 : b ≥ target := by omega
      rw [go_b_ge p target a b m h1 h2, naive_b_ge p target a b h1 h2]
      exact ⟨rfl, hm⟩
  | succ n ih =>
    intro a b m hn hm
    by_cases h1 : a ≥ target
    · rw [go_a_ge p target a b m h1, naive_a_ge p target a b h1]
      exact ⟨rfl, hm⟩
    by_cases h2 : b ≥ target
    · rw [go_b_ge p target a b m h1 h2, naive_b_ge p target a b h1 h2]
      exact ⟨rfl, hm⟩
    cases h3 : m.lookup (a, b) with
    | some v =>
      rw [go_hit p target a b m v h1 h2 h3]
      exact ⟨hm a b v h3, hm⟩
    | none =>
      have s1 := ih (a + 1) b m (by omega) hm
      have s2 := ih a (b + 1) (match_win_probGo p target (a + 1) b m).2 (by omega) s1.2
      rw [go_step p target a b m h1 h2 h3]
      refine ⟨?_, ?_⟩
      · dsimp only
        rw [s1.1, s2.1, naive_step p target a b h1 h2]
      · dsimp only
        intro a2 b2 v2 hv
        rw [List.lookup] at hv
        by_cases hk : (a2, b2) = (a, b)
        · obtain ⟨ha, hb⟩ := Prod.mk.inj hk
          simp only [ha, hb, beq_self_eq_true] at hv
          have hv2 := (Option.some_inj.mp hv).symm
          rw [ha, hb, hv2, s1.1, s2.1, naive_step p target a b h1 h2]
        · have hne : ((a2, b2) == (a, b)) = false := beq_eq_false_iff_ne.mpr hk
          simp only [hne] at hv
          exact s2.2 a2 b2 v2 hv

theorem match_win_prob_eq_naive (p : ℚ) (a b target : ℤ) :
    match_win_prob p a b target = match_win_prob_naive p target a b := by
  have hm : MemoOK p target [] := by
    intro a2 b2 v2 hv
    simp [List.lookup] at hv
  exact (go_spec p target ((2 * target - a - b).toNat) a b [] le_rfl hm).1

theorem naive_bounds (p : ℚ) (target : ℤ) (hp0 : 0 ≤ p) (hp1 : p ≤ 1) :
    ∀ (n : ℕ) (a b : ℤ), (2 * target - a - b).toNat ≤ n →
    0 ≤ match_win_prob_naive p target a b ∧ match_win_prob_naive p target a b ≤ 1 := by
  intro n
  induction n with
  | zero =>
    intro a b hn
    by_cases h1 : a ≥ target
    · rw [naive_a_ge p target a b h1]
      norm_num
    · rw [naive_b_ge p target a b h1 (by omega)]
      norm_num
  | succ n ih =>
    intro a b hn
    by_cases h1 : a ≥ target
    · rw [naive_a_ge p target a b h1]
      norm_num
    by_cases h2 : b ≥ target
    · rw [naive_b_ge p target a b h1 h2]
      norm_num
    have i1 := ih (a + 1) b (by omega)
    have i2 := ih a (b + 1) (by omega)
    rw [naive_step p target a b h1 h2]
    constructor
    · have t1 : 0 ≤ p * match_win_prob_naive p target (a + 1) b :=
        mul_nonneg hp0 i1.1
      have t2 : 0 ≤ (1 - p) * match_win_prob_naive p target a (b + 1) :=
        mul_nonneg (by linarith) i2.1
      linarith
    · have t1 : p * match_win_prob_naive p target (a + 1) b ≤ p * 1 :=
        mul_le_mul_of_nonneg_left i1.2 hp0
      have t2 : (1 - p) * match_win_prob_naive p target a (b + 1) ≤ (1 - p) * 1 :=
        mul_le_mul_of_nonneg_left i2.2 (by linarith)
      linarith

theorem naive_nonneg (p : ℚ) (target a b : ℤ) (hp0 : 0 ≤ p) (hp1 : p ≤ 1) :
    0 ≤ match_win_prob_naive p target a b :=
  (naive_bounds p target hp0 hp1 ((2 * target - a - b).toNat) a b le_rfl).1

theorem naive_le_one (p : ℚ) (target a b : ℤ) (hp0 : 0 ≤ p) (hp1 : p ≤ 1) :
    match_win_prob_naive p target a b ≤ 1 :=
  (naive_bounds p target hp0 hp1 ((2 * target - a - b).toNat) a b le_rfl).2

theorem naive_adv_aux (p : ℚ) (target : ℤ) (hp0 : 0 ≤ p) (hp1 : p ≤ 1) :
    ∀ (n : ℕ) (a b : ℤ), (2 * target - a - b).toNat ≤ n →
    match_win_prob_naive p target a (b + 1) ≤ match_win_prob_naive p target (a + 1) b := by
  intro n
  induction n with
  | zero =>
    intro a b hn
    by_cases hA : a + 1 ≥ target
    · rw [naive_a_ge p target (a + 1) b hA]
      exact naive_le_one p target a (b + 1) hp0 hp1
    · rw [naive_b_ge p target a (b + 1) (by omega) (by omega)]
      exact naive_nonneg p target (a + 1) b hp0 hp1
  | succ n ih =>
    intro a b hn
    by_cases hA : a + 1 ≥ target
    · rw [naive_a_ge p target (a + 1) b hA]
      exact naive_le_one p target a (b + 1) hp0 hp1
    by_cases hB : b + 1 ≥ target
    · rw [naive_b_ge p target a (b + 1) (by omega) hB]
      exact naive_nonneg p target (a + 1) b hp0 hp1
    have i1 := ih (a + 1) b (by omega)
    have i2 := ih a (b + 1) (by omega)
    rw [naive_step p target (a + 1) b (by omega) (by omega),
        naive_step p target a (b + 1) (by omega) (by omega)]
    have t1 : p * match_win_prob_naive p target (a + 1) (b + 1) ≤
        p * match_win_prob_naive p target (a + 1 + 1) b :=
      mul_le_mul_of_nonneg_left i1 hp0
    have t2 : (1 - p) * match_win_prob_naive p target a (b + 1 + 1) ≤
        (1 - p) * match_win_prob_naive p target (a + 1) (b + 1) :=
      mul_le_mul_of_nonneg_left i2 (by linarith)
    linarith

theorem naive_adv (p : ℚ) (target a b : ℤ) (hp0 : 0 ≤ p) (hp1 : p ≤ 1) :
    match_win_prob_naive p target a (b + 1) ≤ match_win_prob_naive p target (a + 1) b :=
  naive_adv_aux p target hp0 hp1 ((2 * target - a - b).toNat) a b le_rfl

theorem naive_mono_p_aux (p q : ℚ) (target : ℤ)
    (hp0 : 0 ≤ p) (hpq : p ≤ q) (hq1 : q ≤ 1) :
    ∀ (n : ℕ) (a b : ℤ), (2 * target - a - b).toNat ≤ n →
    match_win_prob_naive p target a b ≤ match_win_prob_naive q target a b := by
  have hq0 : 0 ≤ q := le_trans hp0 hpq
  have hp1 : p ≤ 1 := le_trans hpq hq1
  intro n
  induction n with
  | zero =>
    intro a b hn
    by_cases h1 : a ≥ target
    · rw [naive_a_ge p target a b h1, naive_a_ge q target a b h1]
    · rw [naive_b_ge p target a b h1 (by omega), naive_b_ge q target a b h1 (by omega)]
  | succ n ih =>
    intro a b hn
    by_cases h1 : a ≥ target
    · rw [naive_a_ge p target a b h1, naive_a_ge q target a b h1]
    by_cases h2 : b ≥ target
    · rw [naive_b_ge p target a b h1 h2, naive_b_ge q target a b h1 h2]
    have i1 := ih (a + 1) b (by omega)
    have i2 := ih a (b + 1) (by omega)
    rw [naive_step p target a b h1 h2, naive_step q target a b h1 h2]
    have t1 : p * match_win_prob_naive p target (a + 1) b ≤
        p * match_win_prob_naive q target (a + 1) b :=
      mul_le_mul_of_nonneg_left i1 hp0
    have t2 : (1 - p) * match_win_prob_naive p target a (b + 1) ≤
        (1 - p) * match_win_prob_naive q target a (b + 1) :=
      mul_le_mul_of_nonneg_left i2 (by linarith)
    have t3 : 0 ≤ (q - p) * (match_win_prob_naive q target (a + 1) b -
        match_win_prob_naive q target a (b + 1)) :=
      mul_nonneg (by linarith)
        (by linarith [naive_adv q target a b hq0 hq1])
    nlinarith [t1, t2, t3]

theorem naive_half_symm (target : ℤ) :
    ∀ (n : ℕ) (a b : ℤ), (2 * target - a - b).toNat ≤ n → (a < target ∨ b < target) →
    match_win_prob_naive (1 / 2) target a b + match_win_prob_naive (1 / 2) target b a = 1 := by
  intro n
  induction n with
  | zero =>
    intro a b hn hd
    by_cases h1 : a ≥ target
    · have hb : b < target := by omega
      rw [naive_a_ge (1 / 2) target a b h1,
          naive_b_ge (1 / 2) target b a (by omega) h1]
      norm_num
    · have h2 : b ≥ target := by omega
      rw [naive_b_ge (1 / 2) target a b h1 h2, naive_a_ge (1 / 2) target b a h2]
      norm_num
  | succ n ih =>
    intro a b hn hd
    by_cases h1 : a ≥ target
    · have hb : b < target := by omega
      rw [naive_a_ge (1 / 2) target a b h1,
          naive_b_ge (1 / 2) target b a (by omega) h1]
      norm_num
    by_cases h2 : b ≥ target
    · rw [naive_b_ge (1 / 2) target a b h1 h2, naive_a_ge (1 / 2) target b a h2]
      norm_num
    have i1 := ih (a + 1) b (by omega) (Or.inr (by omega))
    have i2 := ih a (b + 1) (by omega) (Or.inl (by omega))
    rw [naive_step (1 / 2) target a b h1 h2, naive_step (1 / 2) target b a h2 h1]
    linarith

theorem fuel_eq_naive (p : ℚ) (target : ℤ) :
    ∀ (n : ℕ) (a b : ℤ), (2 * target - a - b).toNat < n →
    match_win_prob_fuel n p target a b = some (match_win_prob_naive p target a b) := by
  intro n
  induction n with
  | zero =>
    intro a b hn
    omega
  | succ n ih =>
    intro a b hn
    by_cases h1 : a ≥ target
    · rw [naive_a_ge p target a b h1]
      simp [match_win_prob_fuel, h1]
    by_cases h2 : b ≥ target
    · rw [naive_b_ge p target a b h1 h2]
      simp [match_win_prob_fuel, h1, h2]
    have e1 := ih (a + 1) b (by omega)
    have e2 := ih a (b + 1) (by omega)
    rw [naive_step p target a b h1 h2]
    simp [match_win_prob_fuel, h1, h2, e1, e2]

/-- Claim C6: for every p inside the clamped domain [1e-6, 1 - 1e-6],
inv_logit (logit p) = p, i.e. inv_logit is the exact inverse of logit
restricted to that domain. -/
theorem inv_logit_logit (p : ℝ) (h1 : 1e-6 ≤ p) (h2 : p ≤ 1 - 1e-6) :
    inv_logit (logit p) = p := by
  have hq : clip p 1e-6 (1 - 1e-6) = p := by
    rw [clip, min_eq_right h2, max_eq_right h1]
  have hp0 : (0:ℝ) < p := lt_of_lt_of_le (by norm_num) h1
  have hp1 : p < 1 := by
    have : (0:ℝ) < 1e-6 := by norm_num
    linarith
  have hden : (0:ℝ) < 1 - p := by linarith
  have hx : (0:ℝ) < p / (1 - p) := div_pos hp0 hden
  simp only [logit, inv_logit]
  rw [hq, Real.exp_neg, Real.exp_log hx]
  rw [inv_div]
  field_simp

/-- Characterization of the combination step: the swap branch never fires
because the clamped cap bounds always satisfy pmin2 ≤ 0.5 ≤ pmax2. -/
theorem update_frame_prob_eq (SA SB boost lambda_shrink : ℝ)
    (cap_on : Bool) (pmin pmax : ℝ) :
    update_frame_prob SA SB boost lambda_shrink cap_on pmin pmax =
      if cap_on then
        clip (0.5 + clip lambda_shrink 0 1 * (inv_logit (SA - SB + boost) - 0.5))
          (clip pmin 0 0.5) (clip pmax 0.5 1)
      else 0.5 + clip lambda_shrink 0 1 * (inv_logit (SA - SB + boost) - 0.5) := by
  have hmin1 : clip pmin 0 0.5 ≤ 0.5 := max_le (by norm_num) (min_le_left _ _)
  have hmax1 : (0.5 : ℝ) ≤ clip pmax 0.5 1 := le_max_left _ _
  have hswap : ¬ (clip pmin 0 0.5 > clip pmax 0.5 1) :=
    not_lt.mpr (le_trans hmin1 hmax1)
  cases cap_on with
  | false => rfl
  | true =>
    simp only [update_frame_prob, if_pos rfl]
    rw [if_neg hswap]

/-- Claim C5: in the combination step of App.update_all, a shrink factor of 0
forces the per-frame probability to exactly 0.5 regardless of the season
strengths and live boost, and whenever capping is enabled the result lies
within the configured clamp interval (pmin clamped into [0, 0.5], pmax into
[0.5, 1], the pair swapped if inverted). -/
theorem update_frame_prob_spec (SA SB boost lambda_shrink : ℝ)
    (cap_on : Bool) (pmin pmax : ℝ) :
    (lambda_shrink = 0 →
      update_frame_prob SA SB boost lambda_shrink cap_on pmin pmax = 0.5) ∧
    (cap_on = true →
      clip pmin 0 0.5 ≤ update_frame_prob SA SB boost lambda_shrink cap_on pmin pmax ∧
      update_frame_prob SA SB boost lambda_shrink cap_on pmin pmax ≤ clip pmax 0.5 1) := by
  have hmin1 : clip pmin 0 0.5 ≤ 0.5 := max_le (by norm_num) (min_le_left _ _)
  have hmax1 : (0.5 : ℝ) ≤ clip pmax 0.5 1 := le_max_left _ _
  rw [update_frame_prob_eq]
  constructor
  · intro hl
    have hc : clip lambda_shrink 0 1 = 0 := by
      rw [hl, clip]
      norm_num
    rw [hc]
    have e1 : (0.5 : ℝ) + 0 * (inv_logit (SA - SB + boost) - 0.5) = 0.5 := by ring
    rw [e1]
    cases cap_on with
    | false => rfl
    | true =>
      simp only [if_pos rfl]
      rw [clip, min_eq_right hmax1, max_eq_right hmin1]
      simp
  · intro hcap
    rw [hcap]
    simp only [if_pos rfl]
    constructor
    · exact le_max_left _ _
    · exact max_le (le_trans hmin1 hmax1) (min_le_left _ _)

/-- Claim C1 counterexample: with zero shots taken on both sides, live_boost
does not return 0 in general: `shots_tot = max(1, shotsA+shotsB)` floors the
shot total at 1, so the reliability weight is 1/max(1,k_shots), not 0.  At the
concrete input below (w_pts = 1, all SDs 1, k_shots = 1, beta = 1, all stats 0,
time-on-table 50) the boost is -1/2. -/
theorem live_boost_zero_shots_cex :
    ¬ (∀ (potA potB stA stB b50A b50B b100A b100B hbA hbB
        ptsA ptsB shotsA shotsB totA totB
        w_pot w_st w_b50 w_b100 w_hb w_pts w_shots w_tot
        sd_pot sd_st sd_b50 sd_b100 sd_hb sd_pts_share sd_shots_share sd_tot_share
        k_shots beta : ℚ), shotsA + shotsB = 0 →
      live_boost potA potB stA stB b50A b50B b100A b100B hbA hbB
        ptsA ptsB shotsA shotsB totA totB
        w_pot w_st w_b50 w_b100 w_hb w_pts w_shots w_tot
        sd_pot sd_st sd_b50 sd_b100 sd_hb sd_pts_share sd_shots_share sd_tot_share
        k_shots beta = 0) := by
  intro h
  have h2 := h 0 0 0 0 0 0 0 0 0 0 0 0 0 0 50 50 0 0 0 0 0 1 0 0 1 1 1 1 1 1 1 1 1 1
    (by norm_num)
  norm_num [live_boost, clip, max_def, min_def] at h2

/-- Claim C1 (amended): when shotsA + shotsB = 0 the shot total is floored to
1, so live_boost returns beta * clip(1/max(1,k_shots), 0, 1) * S where S is the
composite weighted z-score (live_boost evaluated with k_shots = 1, beta = 1);
this is 0 only when beta or S is 0, not identically 0. -/
theorem live_boost_zero_shots (potA potB stA stB b50A b50B b100A b100B hbA hbB
    ptsA ptsB shotsA shotsB totA totB
    w_pot w_st w_b50 w_b100 w_hb w_pts w_shots w_tot
    sd_pot sd_st sd_b50 sd_b100 sd_hb sd_pts_share sd_shots_share sd_tot_share
    k_shots beta : ℚ) (h : shotsA + shotsB = 0) :
    live_boost potA potB stA stB b50A b50B b100A b100B hbA hbB
      ptsA ptsB shotsA shotsB totA totB
      w_pot w_st w_b50 w_b100 w_hb w_pts w_shots w_tot
      sd_pot sd_st sd_b50 sd_b100 sd_hb sd_pts_share sd_shots_share sd_tot_share
      k_shots beta =
    beta * clip (1 / max 1 k_shots) 0 1 *
      live_boost potA potB stA stB b50A b50B b100A b100B hbA hbB
        ptsA ptsB shotsA shotsB totA totB
        w_pot w_st w_b50 w_b100 w_hb w_pts w_shots w_tot
        sd_pot sd_st sd_b50 sd_b100 sd_hb sd_pts_share sd_shots_share sd_tot_share
        1 1 := by
  simp only [live_boost, h]
  have e1 : max (1 : ℚ) 0 = 1 := by norm_num
  have e2 : clip ((1 : ℚ) / max 1 1) 0 1 = 1 := by
    norm_num [clip]
  rw [e1, e2]
  ring

/-- Claim C10: the time-on-table term of live_boost depends only on player A's
absolute percentage totA; changing totB with all other arguments held equal
leaves the result unchanged (totB is never read). -/
theorem live_boost_ignores_totB (potA potB stA stB b50A b50B b100A b100B hbA hbB
    ptsA ptsB shotsA shotsB totA totB totB2
    w_pot w_st w_b50 w_b100 w_hb w_pts w_shots w_tot
    sd_pot sd_st sd_b50 sd_b100 sd_hb sd_pts_share sd_shots_share sd_tot_share
    k_shots beta : ℚ) :
    live_boost potA potB stA stB b50A b50B b100A b100B hbA hbB
      ptsA ptsB shotsA shotsB totA totB
      w_pot w_st w_b50 w_b100 w_hb w_pts w_shots w_tot
      sd_pot sd_st sd_b50 sd_b100 sd_hb sd_pts_share sd_shots_share sd_tot_share
      k_shots beta =
    live_boost potA potB stA stB b50A b50B b100A b100B hbA hbB
      ptsA ptsB shotsA shotsB totA totB2
      w_pot w_st w_b50 w_b100 w_hb w_pts w_shots w_tot
      sd_pot sd_st sd_b50 sd_b100 sd_hb sd_pts_share sd_shots_share sd_tot_share
      k_shots beta := rfl

/-- Claim C2 (amended): match_win_prob returns exactly 1 whenever a ≥ target,
and exactly 0 whenever b ≥ target and a < target (when both players are at or
past target the a-check takes precedence and the result is 1); at any terminal
score the memo is returned unchanged, i.e. no recursive evaluation happens. -/
theorem match_win_prob_terminal (p : ℚ) (a b target : ℤ) :
    (a ≥ target → match_win_prob p a b target = 1) ∧
    (b ≥ target → ¬ a ≥ target → match_win_prob p a b target = 0) ∧
    (∀ memo : List ((ℤ × ℤ) × ℚ), a ≥ target ∨ b ≥ target →
      (match_win_probGo p target a b memo).2 = memo) := by
  refine ⟨?_, ?_, ?_⟩
  · intro h
    rw [match_win_prob, go_a_ge p target a b [] h]
  · intro h2 h1
    rw [match_win_prob, go_b_ge p target a b [] h1 h2]
  · intro memo hd
    by_cases h1 : a ≥ target
    · rw [go_a_ge p target a b memo h1]
    · rw [go_b_ge p target a b memo h1 (by tauto)]

/-- Witness for C2's amended theorem at concrete terminal scores. -/
theorem match_win_prob_terminal_witness :
    match_win_prob (1/2) 5 2 4 = 1 ∧ match_win_prob (1/2) 2 5 4 = 0 ∧
    (match_win_probGo (1/2) 4 5 2 []).2 = [] :=
  ⟨(match_win_prob_terminal (1/2) 5 2 4).1 (by decide),
   (match_win_prob_terminal (1/2) 2 5 4).2.1 (by decide) (by decide),
   (match_win_prob_terminal (1/2) 5 2 4).2.2 [] (Or.inl (by decide))⟩

/-- Claim C2 counterexample: the claim as stated requires a return value of 0
whenever b ≥ target, but at a = b = target = 1 the function returns 1 (the
a ≥ target check fires first). -/
theorem match_win_prob_terminal_cex :
    ¬ (∀ (p : ℚ) (a b target : ℤ), b ≥ target → match_win_prob p a b target = 0) := by
  intro h
  have h2 := h (1/2) 1 1 1 le_rfl
  rw [match_win_prob, go_a_ge (1/2) 1 1 1 [] le_rfl] at h2
  exact one_ne_zero h2

/-- Claim C3: for every p in [0,1], every score pair and every target ≥ 1, the
memoized match_win_prob returns the same value as the naive unmemoized
recurrence with the same base cases, and match_win_prob (1/2) 0 0 4 = 1/2. -/
theorem match_win_prob_memoization (p : ℚ) (a b target : ℤ)
    (hp0 : 0 ≤ p) (hp1 : p ≤ 1) (ht : 1 ≤ target) :
    match_win_prob p a b target = match_win_prob_naive p target a b ∧
    match_win_prob (1/2) 0 0 4 = 1/2 := by
  refine ⟨match_win_prob_eq_naive p a b target, ?_⟩
  rw [match_win_prob_eq_naive]
  have h := naive_half_symm 4 ((2 * 4 - 0 - 0 : ℤ).toNat) 0 0 le_rfl (Or.inl (by norm_num))
  linarith

/-- Witness for C3 at a concrete input. -/
theorem match_win_prob_memoization_witness :
    match_win_prob (1/2) 1 2 4 = match_win_prob_naive (1/2) 4 1 2 ∧
    match_win_prob (1/2) 0 0 4 = 1/2 :=
  match_win_prob_memoization (1/2) 1 2 4 (by norm_num) (by norm_num) (by norm_num)

/-- Claim C4: for a fixed score pair and target ≥ 1, match_win_prob is
non-decreasing in p on [0, 1]. -/
theorem match_win_prob_mono_p (a b target : ℤ) (ht : 1 ≤ target) (p q : ℚ)
    (hp0 : 0 ≤ p) (hpq : p ≤ q) (hq1 : q ≤ 1) :
    match_win_prob p a b target ≤ match_win_prob q a b target := by
  rw [match_win_prob_eq_naive, match_win_prob_eq_naive]
  exact naive_mono_p_aux p q target hp0 hpq hq1 ((2 * target - a - b).toNat) a b le_rfl

/-- Witness for C4 at a concrete input. -/
theorem match_win_prob_mono_p_witness :
    match_win_prob (1/4) 0 0 4 ≤ match_win_prob (3/4) 0 0 4 :=
  match_win_prob_mono_p 0 0 4 (by norm_num) (1/4) (3/4) (by norm_num) (by norm_num)
    (by norm_num)

/-- Claim C7: the recursion of match_win_prob terminates: every recursive call
strictly increases a + b, which is bounded above by the base cases, so the
fuel-instrumented recursion already succeeds with fuel (2*target - a - b).toNat
+ 1, returning the value of match_win_prob. -/
theorem match_win_prob_terminates (p : ℚ) (a b target : ℤ) (n : ℕ)
    (hn : (2 * target - a - b).toNat < n) :
    match_win_prob_fuel n p target a b = some (match_win_prob p a b target) := by
  rw [match_win_prob_eq_naive]
  exact fuel_eq_naive p target n a b hn

/-- Witness for C7 at a concrete input. -/
theorem match_win_prob_terminates_witness :
    match_win_prob_fuel 9 (1/2) 4 0 0 = some (match_win_prob (1/2) 0 0 4) :=
  match_win_prob_terminates (1/2) 0 0 4 9 (by decide)

/-- Claim C9: for every p in (0,1), scores a, b ≥ 0 and target ≥ 1,
match_win_prob p a b target lies in [0, 1]. -/
theorem match_win_prob_in_unit (p : ℚ) (a b target : ℤ)
    (hp0 : 0 < p) (hp1 : p < 1) (ha : 0 ≤ a) (hb : 0 ≤ b) (ht : 1 ≤ target) :
    0 ≤ match_win_prob p a b target ∧ match_win_prob p a b target ≤ 1 := by
  rw [match_win_prob_eq_naive]
  exact ⟨naive_nonneg p target a b (le_of_lt hp0) (le_of_lt hp1),
         naive_le_one p target a b (le_of_lt hp0) (le_of_lt hp1)⟩

/-- Witness for C9 at a concrete input. -/
theorem match_win_prob_in_unit_witness :
    0 ≤ match_win_prob (1/2) 0 0 4 ∧ match_win_prob (1/2) 0 0 4 ≤ 1 :=
  match_win_prob_in_unit (1/2) 0 0 4 (by norm_num) (by norm_num) (by norm_num)
    (by norm_num) (by norm_num)

/-- Witness for C6 at p = 1/2. -/
theorem inv_logit_logit_witness : inv_logit (logit (1/2)) = 1/2 :=
  inv_logit_logit (1/2) (by norm_num) (by norm_num)

/-- Witness for C5 at concrete inputs. -/
theorem update_frame_prob_spec_witness :
    update_frame_prob 1 0 0 0 true 0.45 0.66 = 0.5 ∧
    (clip (0.45 : ℝ) 0 0.5 ≤ update_frame_prob 2 1 3 0.7 true 0.45 0.66 ∧
     update_frame_prob 2 1 3 0.7 true 0.45 0.66 ≤ clip (0.66 : ℝ) 0.5 1) :=
  ⟨(update_frame_prob_spec 1 0 0 0 true 0.45 0.66).1 rfl,
   (update_frame_prob_spec 2 1 3 0.7 true 0.45 0.66).2 rfl⟩

/-- Witness for C1's amended theorem at a concrete input with zero shots. -/
theorem live_boost_zero_shots_witness :
    (0 : ℚ) + 0 = 0 ∧
    live_boost 3 7 2 5 1 0 0 1 40 25 10 20 0 0 50 60 1 1 1 1 1 1 1 1 1 1 1 1 1 1 1 1 150 2 =
      2 * clip (1 / max 1 150) 0 1 *
        live_boost 3 7 2 5 1 0 0 1 40 25 10 20 0 0 50 60 1 1 1 1 1 1 1 1 1 1 1 1 1 1 1 1 1 1 :=
  ⟨by norm_num,
   live_boost_zero_shots 3 7 2 5 1 0 0 1 40 25 10 20 0 0 50 60 1 1 1 1 1 1 1 1 1 1 1 1 1 1 1 1
     150 2 (by norm_num)⟩
